import Mathlib

/-!
# Verification of the SECOP blockchain core (secop-blockchain)

Shallow embedding of `internal/blockchain/block.go` and
`internal/blockchain/blockchain.go` (ledger, P2P receive/sync, workflow
manager), with theorems checking the natural-language specification.

Modelling conventions:
* Go `time.Time` values are modelled as `Nat` (Unix seconds); operations that
  read the wall clock (`config.GetColombianTime()`) take an explicit `now`
  argument.
* `uuid.New().String()` is modelled as the uninterpreted constant `"uuid"`;
  no theorem depends on uuid values.
* SHA-256 (`sha256.Sum256` + `hex.EncodeToString`) is modelled as an injective
  deterministic digest `sha256hex`; the theorems use only that it is a
  deterministic function of the serialized record and that its output is
  non-empty (a real hex digest is 64 characters).
* `json.Marshal` of the hash record is modelled by a deterministic canonical
  encoding of the same six fields (`index`, `timestamp`, `data`,
  `previous_hash`, `nonce`, `type`); JSON key sorting is abstracted since only
  determinism of the serialization matters.
* `float64` contract amounts are modelled as `Int`; no claim computes with
  amounts beyond the `> 0` check.
-/

set_option maxRecDepth 200000

namespace Secop

mutual
/-- A dynamic Go value, as stored in a `map[string]interface{}` block payload. -/
inductive Val : Type where
  | vstr (s : String)
  | vint (n : Int)
  | vbool (b : Bool)
  | vtime (t : Nat)
  | vobj (fs : Fields)

/-- A `map[string]interface{}`, as an association list of entries. -/
inductive Fields : Type where
  | nil
  | cons (k : String) (v : Val) (rest : Fields)
end

mutual
/-- Size measure on dynamic values, used to show that a value is never equal
to an envelope that strictly contains it. -/
def Val.size : Val → Nat
  | .vstr _ => 1
  | .vint _ => 1
  | .vbool _ => 1
  | .vtime _ => 1
  | .vobj fs => fs.size + 1

def Fields.size : Fields → Nat
  | .nil => 0
  | .cons _ v rest => v.size + rest.size + 1
end

/-- Look up a key in a payload map; first match wins (the program never builds
maps with duplicate keys). -/
def Fields.lookup : Fields → String → Option Val
  | .nil, _ => none
  | .cons k v rest, key => if k = key then some v else rest.lookup key

/-- `blockData["type"].(string)`: the `"type"` entry, when it is a string. -/
def Fields.typeString (fs : Fields) : Option String :=
  match fs.lookup "type" with
  | some (.vstr s) => some s
  | _ => none

mutual
/-- Canonical serialization of a dynamic value (the role of `json.Marshal`). -/
def Val.encode : Val → String
  | .vstr s => "s:" ++ s
  | .vint n => "i:" ++ toString n
  | .vbool b => "b:" ++ toString b
  | .vtime t => "t:" ++ toString t
  | .vobj fs => "o:[" ++ fs.encode ++ "]"

def Fields.encode : Fields → String
  | .nil => ""
  | .cons k v rest => k ++ "=" ++ v.encode ++ ";" ++ rest.encode
end

/-- The SHA-256 hex digest, idealized as an injective deterministic digest.
Only determinism and non-emptiness of the output are used. -/
def sha256hex (s : String) : String := "sha256:" ++ s

/-- `Block` (block.go): index, timestamp, data payload, previous hash, own
hash, nonce (always 0, no proof of work) and a type tag. -/
structure Block where
  index : Int
  timestamp : Nat
  data : Fields
  previousHash : String
  hash : String
  nonce : Int
  type : String

/-- The record that `calculateHash` serializes: the six fields
`index`, `timestamp` (Unix), `data`, `previous_hash`, `nonce`, `type`.
The stored `hash` field is not part of the record. -/
def hashRecord (b : Block) : String :=
  "index=" ++ toString b.index ++ ";timestamp=" ++ toString b.timestamp ++
  ";data=" ++ b.data.encode ++ ";previous_hash=" ++ b.previousHash ++
  ";nonce=" ++ toString b.nonce ++ ";type=" ++ b.type

/-- `Block.calculateHash` (block.go): SHA-256 of the serialized record. -/
def calculateHash (b : Block) : String := sha256hex (hashRecord b)

/-- `ContractStatus` constants (block.go). -/
inductive ContractStatus where
  | draft | technicalReview | technicalApproved | legalReview | legalApproved
  | contractsReview | contractsApproved | adminReview | adminApproved
  | budgetReview | authorizedForPublication | published | proposalsReceived
  | evaluated | awarded | executed | completed
  | underAudit | auditObservations | rejected
deriving DecidableEq

/-- `AdminRole` constants (block.go). -/
inductive AdminRole where
  | projectDeveloper | technicalCommission | legalCommission
  | contractsChief | adminChief | budgetAuthority
  | comptroller | prosecutor | citizen
deriving DecidableEq

/-- The wire string of a role, `string(role)`. -/
def AdminRole.str : AdminRole → String
  | .projectDeveloper => "PROJECT_DEVELOPER"
  | .technicalCommission => "TECHNICAL_COMMISSION"
  | .legalCommission => "LEGAL_COMMISSION"
  | .contractsChief => "CONTRACTS_CHIEF"
  | .adminChief => "ADMIN_CHIEF"
  | .budgetAuthority => "BUDGET_AUTHORITY"
  | .comptroller => "COMPTROLLER"
  | .prosecutor => "PROSECUTOR"
  | .citizen => "CITIZEN"

/-- `ValidationStatus` constants (block.go). -/
inductive ValidationStatus where
  | pending | approved | rejected | inReview
deriving DecidableEq

/-- `ValidationStep` (block.go). -/
structure ValidationStep where
  stepNumber : Int
  role : AdminRole
  validatorID : String
  validatorName : String
  status : ValidationStatus
  timestamp : Nat
  comments : String
  required : Bool
  digitalSign : String
  documents : List String
deriving DecidableEq

/-- `AuditEntry` (block.go). -/
structure AuditEntry where
  id : String
  action : String
  userID : String
  userRole : AdminRole
  timestamp : Nat
  description : String
  ipAddress : String
  blockHash : String
deriving DecidableEq

/-- `Contract` (block.go). Amounts are modelled as integers. -/
structure Contract where
  id : String
  entityCode : String
  entityName : String
  contractType : String
  description : String
  amount : Int
  status : ContractStatus
  createdBy : String
  createdAt : Nat
  updatedAt : Nat
  validationSteps : List ValidationStep
  currentStep : Int
  requiredRoles : List String
  auditTrail : List AuditEntry
deriving DecidableEq

/-- `Blockchain` (blockchain.go): the chain plus the derived contracts map,
the latter modelled as an association list with Go map update semantics. -/
structure Blockchain where
  chain : List Block
  contracts : List (String × Contract)

/-- Go map read `m[k]`. -/
def mapFind : List (String × Contract) → String → Option Contract
  | [], _ => none
  | (k, v) :: rest, key => if k = key then some v else mapFind rest key

/-- Go map write `m[k] = v`: replace an existing binding or add a new one. -/
def mapInsert : List (String × Contract) → String → Contract → List (String × Contract)
  | [], key, c => [(key, c)]
  | (k, v) :: rest, key, c =>
      if k = key then (k, c) :: rest else (k, v) :: mapInsert rest key c

/-- The genesis block built by `NewBlockchain`. -/
def genesisBlock (ts : Nat) : Block :=
  let base : Block :=
    { index := 0, timestamp := ts,
      data := .cons "message" (.vstr "SECOP Blockchain Genesis Block") .nil,
      previousHash := "", hash := "", nonce := 0, type := "" }
  { base with hash := calculateHash base }

/-- `NewBlockchain` (blockchain.go): a chain holding only the genesis block
and an empty contracts map. -/
def newBlockchain (ts : Nat) : Blockchain :=
  { chain := [genesisBlock ts], contracts := [] }

/-- Errors returned by the core; each constructor names one `errors.New` /
`fmt.Errorf` site. `stepMismatch` carries the current and requested step the
message interpolates. -/
inductive Err where
  | contractNotFound
  | stepMismatch (cur req : Int)
  | stepOutOfRange
  | roleNotAuthorized
  | invalidBlock
  | invalidBlockReceived
  | errorAddingBlock
  | chainNotLonger
  | chainInvalid
  | entityCodeRequired
  | entityNameRequired
  | descriptionRequired
  | amountNotPositive
  | createdByRequired
deriving DecidableEq

/-- `Blockchain.IsValidBlock` (blockchain.go): non-empty hash, hash matches
the recomputation, and — unless `index <= 0` — the current last block's hash
equals the candidate's `previous_hash` (false on an empty chain). -/
def isValidBlock (bc : Blockchain) (b : Block) : Bool :=
  if b.hash = "" then false
  else if b.hash ≠ calculateHash b then false
  else if b.index > 0 then
    match bc.chain.getLast? with
    | none => false
    | some last => decide (last.hash = b.previousHash)
  else true

/-- `Blockchain.HasBlock` (blockchain.go). -/
def hasBlock (bc : Blockchain) (h : String) : Bool :=
  bc.chain.any (fun b => decide (b.hash = h))

/-- The block `AddBlock` constructs before validating: index `len(chain)`,
`previous_hash` the latest block's hash, fresh timestamp, nonce 0, type from
the payload's `"type"` entry, hash recomputed over the final fields.
(`NewBlock` first computes a hash at index 0 which `AddBlock` immediately
overwrites after setting the real index; only the final hash is modelled.) -/
def buildBlock (bc : Blockchain) (blockData : Fields) (now : Nat)
    (prevHash : String) : Block :=
  let base : Block :=
    { index := Int.ofNat bc.chain.length, timestamp := now, data := blockData,
      previousHash := prevHash, hash := "", nonce := 0,
      type := blockData.typeString.getD "" }
  { base with hash := calculateHash base }

/-- `Blockchain.AddBlock` (blockchain.go): build, validate, append; on a
validation failure the block is discarded and the chain is unchanged.
(On an empty chain `getLatestBlock` would panic in Go; that state is
unreachable — every chain holds at least the genesis block — and is modelled
as a failure without mutation.) -/
def addBlock (bc : Blockchain) (blockData : Fields) (now : Nat) :
    Option Block × Blockchain :=
  match bc.chain.getLast? with
  | none => (none, bc)
  | some last =>
    let b := buildBlock bc blockData now last.hash
    if isValidBlock bc b then (some b, { bc with chain := bc.chain ++ [b] })
    else (none, bc)

/-- `Blockchain.IsValidChain` (blockchain.go): non-empty; every block has a
non-empty hash; every non-first block links to its predecessor's hash. Note
that neither indices nor hash recomputation are checked. -/
def chainCheck : List Block → Bool
  | [] => true
  | [b] => decide (b.hash ≠ "")
  | b :: b2 :: t =>
      decide (b.hash ≠ "") && decide (b2.previousHash = b.hash) && chainCheck (b2 :: t)

def isValidChain (chain : List Block) : Bool :=
  !chain.isEmpty && chainCheck chain

/-- `Blockchain.ReplaceChain` (blockchain.go): adopt the candidate verbatim
iff it is strictly longer and `IsValidChain` holds; otherwise error and leave
the state untouched. -/
def replaceChain (bc : Blockchain) (newChain : List Block) :
    Option Err × Blockchain :=
  if newChain.length ≤ bc.chain.length then (some .chainNotLonger, bc)
  else if ¬ isValidChain newChain then (some .chainInvalid, bc)
  else (none, { bc with chain := newChain })

/-! ## Workflow manager (blockchain.go, `WorkflowManager`) -/

/-- `WorkflowStep` (blockchain.go). -/
structure WorkflowStep where
  stepNumber : Int
  role : AdminRole
  name : String
  required : Bool

/-- `WorkflowManager.GetWorkflowSteps`: the fixed six-step SECOP pipeline. -/
def workflowSteps : List WorkflowStep :=
  [ { stepNumber := 1, role := .projectDeveloper, name := "Creación del Proyecto", required := true },
    { stepNumber := 2, role := .technicalCommission, name := "Revisión Técnica", required := true },
    { stepNumber := 3, role := .legalCommission, name := "Revisión Jurídica", required := true },
    { stepNumber := 4, role := .contractsChief, name := "Aprobación Jefe de Contratos", required := true },
    { stepNumber := 5, role := .adminChief, name := "Aprobación Jefe Administrativo", required := true },
    { stepNumber := 6, role := .budgetAuthority, name := "Autorización Ordenador del Gasto", required := true } ]

/-- `WorkflowManager.addAuditEntry`: one audit-trail entry (uuid modelled as a
constant, IP address left empty as in the source). -/
def mkAuditEntry (action userID : String) (role : AdminRole) (description : String)
    (now : Nat) : AuditEntry :=
  { id := "uuid", action := action, userID := userID, userRole := role,
    timestamp := now, description := description, ipAddress := "", blockHash := "" }

/-- `WorkflowManager.InitializeContractWorkflow`: pending validation steps for
the whole pipeline, `current_step = 1`, status `Draft`, and a
`WORKFLOW_INITIALIZED` audit entry. -/
def initializeContractWorkflow (c : Contract) (now : Nat) : Contract :=
  { c with
    validationSteps := workflowSteps.map (fun s =>
      { stepNumber := s.stepNumber, role := s.role, validatorID := "",
        validatorName := "", status := .pending, timestamp := 0, comments := "",
        required := s.required, digitalSign := "", documents := [] }),
    currentStep := 1, status := .draft, updatedAt := now,
    auditTrail := c.auditTrail ++
      [mkAuditEntry "WORKFLOW_INITIALIZED" c.createdBy .projectDeveloper
        "Flujo de trabajo inicializado" now] }

/-- `WorkflowManager.getStatusForStep` (blockchain.go). -/
def getStatusForStep (stepNumber : Int) : ContractStatus :=
  if stepNumber = 1 then .draft
  else if stepNumber = 2 then .technicalReview
  else if stepNumber = 3 then .legalReview
  else if stepNumber = 4 then .contractsReview
  else if stepNumber = 5 then .adminReview
  else if stepNumber = 6 then .budgetReview
  else .authorizedForPublication

/-- Back-fill `BlockHash` on the newest audit entry
(`contract.AuditTrail[len-1].BlockHash = block.Hash`). -/
def setLastBlockHash : List AuditEntry → String → List AuditEntry
  | [], _ => []
  | [e], h => [{ e with blockHash := h }]
  | e :: e2 :: rest, h => e :: setLastBlockHash (e2 :: rest) h

/-- The mutated validation step: validator identity, fresh timestamp, comments
and the approve/reject status. -/
def updStep (validatorID validatorName : String) (approved : Bool)
    (comments : String) (now : Nat) (s : ValidationStep) : ValidationStep :=
  { s with
    validatorID := validatorID, validatorName := validatorName,
    timestamp := now, comments := comments,
    status := if approved then .approved else .rejected }

/-- The tail shared verbatim by `ValidateStep`, `AddAuditObservation` and
`AddContract`: store the mutated contract, append the event block, and
back-fill the block hash into the newest audit entry (on a block-append
failure Go returns the error with the contract mutation already applied). -/
def commitWithBlock (bc : Blockchain) (contractID : String) (c1 : Contract)
    (bd : Fields) (now : Nat) : Option Err × Blockchain :=
  let bc1 := { bc with contracts := mapInsert bc.contracts contractID c1 }
  match addBlock bc1 bd now with
  | (none, bc2) => (some .invalidBlock, bc2)
  | (some blk, bc2) =>
    let c2 := { c1 with auditTrail := setLastBlockHash c1.auditTrail blk.hash }
    (none, { bc2 with contracts := mapInsert bc2.contracts contractID c2 })

/-- The `VALIDATION` block payload built by `ValidateStep`. -/
def validationBlockData (contractID : String) (stepNumber : Int)
    (validatorID : String) (role : AdminRole) (approved : Bool)
    (comments : String) (now : Nat) : Fields :=
  .cons "type" (.vstr "VALIDATION") (.cons "contract_id" (.vstr contractID)
    (.cons "step" (.vint stepNumber) (.cons "validator" (.vstr validatorID)
      (.cons "role" (.vstr role.str) (.cons "approved" (.vbool approved)
        (.cons "comments" (.vstr comments) (.cons "timestamp" (.vtime now) .nil)))))))

/-- `WorkflowManager.ValidateStep` (blockchain.go): contract lookup, strict
`step_number == current_step` check, range check, in-place step mutation,
advance (approve) or terminal `Rejected` (reject), audit entry, `VALIDATION`
block, and back-fill of the block hash into the newest audit entry.

Go indexes `ValidationSteps[stepNumber-1]`, which panics for
`stepNumber <= 0`; that is reachable only from a contract whose
`current_step < 1`, which no reachable contract has, and the theorems carry
`1 ≤ current_step` where it matters. -/
def validateStep (bc : Blockchain) (contractID : String) (stepNumber : Int)
    (validatorID validatorName : String) (role : AdminRole) (approved : Bool)
    (comments : String) (now : Nat) : Option Err × Blockchain :=
  match mapFind bc.contracts contractID with
  | none => (some .contractNotFound, bc)
  | some c =>
    if stepNumber ≠ c.currentStep then
      (some (.stepMismatch c.currentStep stepNumber), bc)
    else if stepNumber > Int.ofNat c.validationSteps.length then
      (some .stepOutOfRange, bc)
    else
      let idx := (stepNumber - 1).toNat
      let steps :=
        match c.validationSteps[idx]? with
        | some s => c.validationSteps.set idx
            (updStep validatorID validatorName approved comments now s)
        | none => c.validationSteps
      let c1 : Contract :=
        if approved then
          { c with
            validationSteps := steps,
            currentStep := c.currentStep + 1,
            status := getStatusForStep (c.currentStep + 1),
            auditTrail := c.auditTrail ++
              [mkAuditEntry "STEP_APPROVED" validatorID role
                ("Paso " ++ toString stepNumber ++ " aprobado: " ++ comments) now],
            updatedAt := now }
        else
          { c with
            validationSteps := steps,
            status := .rejected,
            auditTrail := c.auditTrail ++
              [mkAuditEntry "STEP_REJECTED" validatorID role
                ("Paso " ++ toString stepNumber ++ " rechazado: " ++ comments) now],
            updatedAt := now }
      commitWithBlock bc contractID c1
        (validationBlockData contractID stepNumber validatorID role approved
          comments now) now

/-- `WorkflowManager.AddAuditObservation` (blockchain.go): restricted to the
external control roles; appends one audit entry and one `AUDIT_OBSERVATION`
block, then back-fills the block hash. Contract status is never touched. -/
def addAuditObservation (bc : Blockchain) (contractID auditorID : String)
    (role : AdminRole) (observation : String) (now : Nat) :
    Option Err × Blockchain :=
  match mapFind bc.contracts contractID with
  | none => (some .contractNotFound, bc)
  | some c =>
    if role ≠ .comptroller ∧ role ≠ .prosecutor ∧ role ≠ .citizen then
      (some .roleNotAuthorized, bc)
    else
      let c1 := { c with auditTrail := c.auditTrail ++
        [mkAuditEntry "AUDIT_OBSERVATION" auditorID role observation now] }
      let bd : Fields :=
        .cons "type" (.vstr "AUDIT_OBSERVATION") (.cons "contract_id" (.vstr contractID)
          (.cons "auditor" (.vstr auditorID) (.cons "role" (.vstr role.str)
            (.cons "observation" (.vstr observation) (.cons "timestamp" (.vtime now) .nil)))))
      commitWithBlock bc contractID c1 bd now

/-- `Blockchain.validateContract` (blockchain.go): required-field checks. -/
def validateContractFields (c : Contract) : Option Err :=
  if c.entityCode = "" then some .entityCodeRequired
  else if c.entityName = "" then some .entityNameRequired
  else if c.description = "" then some .descriptionRequired
  else if c.amount ≤ 0 then some .amountNotPositive
  else if c.createdBy = "" then some .createdByRequired
  else none

/-- `Blockchain.AddContract` (blockchain.go): validate fields, assign an id if
empty, stamp timestamps and `Draft`, initialize the workflow, store the
contract, append a `CONTRACT_CREATION` block and back-fill its hash into the
newest audit entry. -/
def addContract (bc : Blockchain) (c : Contract) (now : Nat) :
    Option Err × Blockchain :=
  match validateContractFields c with
  | some e => (some e, bc)
  | none =>
    let cid := if c.id = "" then "uuid" else c.id
    let c1 := { c with
                id := cid, createdAt := now, updatedAt := now,
                status := ContractStatus.draft }
    let c2 := initializeContractWorkflow c1 now
    let bd : Fields :=
      .cons "type" (.vstr "CONTRACT_CREATION") (.cons "contract_id" (.vstr cid)
        (.cons "entity_code" (.vstr c2.entityCode) (.cons "entity_name" (.vstr c2.entityName)
          (.cons "amount" (.vint c2.amount) (.cons "created_by" (.vstr c2.createdBy)
            (.cons "timestamp" (.vtime c2.createdAt) .nil))))))
    commitWithBlock bc cid c2 bd now

/-! ## P2P layer (blockchain.go, `P2PNetwork`) -/

/-- The five-key envelope `ReceiveBlock` builds around a received block before
handing it to `AddBlock`. -/
def envelopeData (b : Block) : Fields :=
  .cons "type" (.vstr b.type) (.cons "data" (.vobj b.data)
    (.cons "timestamp" (.vtime b.timestamp) (.cons "previous_hash" (.vstr b.previousHash)
      (.cons "nonce" (.vint b.nonce) .nil))))

/-- `P2PNetwork.ReceiveBlock` (blockchain.go): validate, drop duplicates by
hash, otherwise append a freshly built block wrapping the received one. -/
def receiveBlock (bc : Blockchain) (b : Block) (now : Nat) :
    Option Err × Blockchain :=
  if ¬ isValidBlock bc b then (some .invalidBlockReceived, bc)
  else if hasBlock bc b.hash then (none, bc)
  else
    match addBlock bc (envelopeData b) now with
    | (none, bc2) => (some .errorAddingBlock, bc2)
    | (some _, bc2) => (none, bc2)

mutual
/-- Go `fmt.Sprintf("%v", v)` on a dynamic value: a map renders as
`map[k1:v1 k2:v2]`; a `time.Time` is rendered through its numeric model. -/
def Val.goFmt : Val → String
  | .vstr s => s
  | .vint n => toString n
  | .vbool b => toString b
  | .vtime t => toString t
  | .vobj fs => "map[" ++ fs.goFmt ++ "]"

def Fields.goFmt : Fields → String
  | .nil => ""
  | .cons k v .nil => k ++ ":" ++ v.goFmt
  | .cons k v (.cons k2 v2 rest) => k ++ ":" ++ v.goFmt ++ " " ++ (Fields.cons k2 v2 rest).goFmt
end

/-- Modelled from Go `encoding/json`: `Unmarshal` into a struct succeeds only
when the input is a JSON object, whose first character is the opening brace
`\x7b`. `rebuildContractsFromChain` only ever feeds it
`fmt.Sprintf("%v", block.Data)`, which begins with `"map["` and therefore
always fails to decode; parsing of a genuine JSON object is never reached by
this program and is not modelled beyond the leading-character test. -/
def jsonUnmarshalContract (s : String) : Option Contract :=
  if s.startsWith "\x7b" then none else none

/-- The decode step of `rebuildContractsFromChain`:
`json.Unmarshal([]byte(fmt.Sprintf("%v", block.Data)), &contract)`. -/
def decodeContract (d : Fields) : Option Contract :=
  jsonUnmarshalContract (Val.goFmt (.vobj d))

/-- `P2PNetwork.rebuildContractsFromChain` (blockchain.go): reset the map and
replay every `CONTRACT_CREATION` block whose payload decodes. -/
def rebuildContracts (chain : List Block) : List (String × Contract) :=
  chain.foldl (fun m b =>
    if b.type = "CONTRACT_CREATION" then
      match decodeContract b.data with
      | some c => mapInsert m c.id c
      | none => m
    else m) []

/-- One iteration of `P2PNetwork.SyncWithPeers` (blockchain.go) against a
single peer's chain: adopt it verbatim when strictly longer and valid, and
rebuild the contracts map from the adopted chain. -/
def syncWithPeer (bc : Blockchain) (peerChain : List Block) : Blockchain :=
  if bc.chain.length < peerChain.length ∧ isValidChain peerChain = true then
    { chain := peerChain, contracts := rebuildContracts peerChain }
  else bc

/-! ## Ledger invariants and reachability -/

/-- Invariants 1-4 of the spec's Ledger data model, folded into one pass:
block `i` has index `i`, the first block's `previous_hash` is empty, every
later block links to its predecessor's hash, and every stored hash matches
its recomputation. -/
def invFrom : List Block → Nat → String → Bool
  | [], _, _ => true
  | b :: t, i, prev =>
      decide (b.index = Int.ofNat i) && decide (b.previousHash = prev) &&
      decide (b.hash = calculateHash b) && invFrom t (i + 1) b.hash

/-- The four Ledger invariants of the spec (a non-empty chain is implied by
the spec's reference to `chain[0]`). -/
def chainInv (chain : List Block) : Bool :=
  !chain.isEmpty && invFrom chain 0 ""

/-- Invariant 2 alone: every non-first block links to its predecessor. -/
def linksOk : List Block → Bool
  | [] => true
  | [_] => true
  | b :: b2 :: t => decide (b2.previousHash = b.hash) && linksOk (b2 :: t)

/-- Ledger states reachable from genesis by successful `AddBlock` and
successful `ReplaceChain` operations. -/
inductive Reachable : Blockchain → Prop where
  | genesis (ts : Nat) : Reachable (newBlockchain ts)
  | add (bc : Blockchain) (d : Fields) (now : Nat) :
      Reachable bc → (addBlock bc d now).1.isSome →
      Reachable (addBlock bc d now).2
  | replace (bc : Blockchain) (c : List Block) :
      Reachable bc → (replaceChain bc c).1 = none →
      Reachable (replaceChain bc c).2

/-- Ledger states reachable from genesis by successful `AddBlock` alone. -/
inductive ReachableAdd : Blockchain → Prop where
  | genesis (ts : Nat) : ReachableAdd (newBlockchain ts)
  | add (bc : Blockchain) (d : Fields) (now : Nat) :
      ReachableAdd bc → (addBlock bc d now).1.isSome →
      ReachableAdd (addBlock bc d now).2

/-! ## Supporting lemmas -/

theorem sha256hex_ne_empty (s : String) : sha256hex s ≠ "" := by
  intro h
  have h2 := congrArg String.data h
  simp [sha256hex, String.data_append] at h2

/-- `calculateHash` reads only the six record fields, never the stored hash. -/
theorem buildBlock_hash (bc : Blockchain) (d : Fields) (now : Nat) (p : String) :
    (buildBlock bc d now p).hash = calculateHash (buildBlock bc d now p) := by
  simp [buildBlock, calculateHash, hashRecord]

theorem buildBlock_index (bc : Blockchain) (d : Fields) (now : Nat) (p : String) :
    (buildBlock bc d now p).index = Int.ofNat bc.chain.length := rfl

theorem buildBlock_prev (bc : Blockchain) (d : Fields) (now : Nat) (p : String) :
    (buildBlock bc d now p).previousHash = p := rfl

/-- On a non-empty chain, the freshly built block always passes
`IsValidBlock`. -/
theorem isValidBlock_buildBlock (bc : Blockchain) (d : Fields) (now : Nat)
    (last : Block) (h : bc.chain.getLast? = some last) :
    isValidBlock bc (buildBlock bc d now last.hash) = true := by
  have hne : bc.chain ≠ [] := by
    intro hnil
    rw [hnil] at h
    simp at h
  have hlen : 0 < bc.chain.length := List.length_pos.mpr hne
  unfold isValidBlock
  rw [if_neg, if_neg]
  · rw [if_pos]
    · rw [h]
      simp [buildBlock_prev]
    · show (buildBlock bc d now last.hash).index > 0
      rw [buildBlock_index]
      exact Int.ofNat_pos.mpr hlen
  · rw [buildBlock_hash]
    simp
  · rw [buildBlock_hash]
    exact sha256hex_ne_empty _

/-- Normal form of a successful `AddBlock` on a non-empty chain. -/
theorem addBlock_some (bc : Blockchain) (d : Fields) (now : Nat)
    (last : Block) (h : bc.chain.getLast? = some last) :
    addBlock bc d now =
      (some (buildBlock bc d now last.hash),
       { bc with chain := bc.chain ++ [buildBlock bc d now last.hash] }) := by
  unfold addBlock
  rw [h]
  simp [isValidBlock_buildBlock bc d now last h]

/-- A failed `AddBlock` leaves the state untouched. -/
theorem addBlock_fail_unchanged (bc : Blockchain) (d : Fields) (now : Nat)
    (h : (addBlock bc d now).1 = none) : (addBlock bc d now).2 = bc := by
  cases hl : bc.chain.getLast? with
  | none =>
    unfold addBlock
    rw [hl]
  | some last =>
    rw [addBlock_some bc d now last hl] at h
    simp at h

/-- On a non-empty chain, `AddBlock` always succeeds. -/
theorem addBlock_isSome (bc : Blockchain) (d : Fields) (now : Nat)
    (hne : bc.chain ≠ []) : (addBlock bc d now).1.isSome := by
  obtain ⟨last, hl⟩ := Option.isSome_iff_exists.mp (List.getLast?_isSome.mpr hne)
  rw [addBlock_some bc d now last hl]
  rfl

theorem mapFind_insert (m : List (String × Contract)) (k key : String) (c : Contract) :
    mapFind (mapInsert m k c) key = if k = key then some c else mapFind m key := by
  induction m with
  | nil => rfl
  | cons kv rest ih =>
    obtain ⟨k', v⟩ := kv
    by_cases hk : k' = k
    · subst hk
      simp only [mapInsert, if_pos rfl, mapFind]
      by_cases hkey : k' = key <;> simp [hkey]
    · simp only [mapInsert, if_neg hk, mapFind]
      by_cases hkey : k' = key
      · have hkk : k ≠ key := fun hkk => hk (hkey.trans hkk.symm)
        simp [hkey, hkk]
      · simp [hkey, ih]

theorem mapFind_insert_self (m : List (String × Contract)) (k : String) (c : Contract) :
    mapFind (mapInsert m k c) k = some c := by
  rw [mapFind_insert, if_pos rfl]

theorem length_setLastBlockHash (l : List AuditEntry) (h : String) :
    (setLastBlockHash l h).length = l.length := by
  induction l with
  | nil => rfl
  | cons e rest ih =>
    cases rest with
    | nil => rfl
    | cons e2 rest2 =>
      simp only [setLastBlockHash, List.length_cons]
      simpa using ih

/-- The hash the next appended block must link to: the last block's hash, or
the default `p` for an empty prefix. -/
def lastHashD (l : List Block) (p : String) : String :=
  ((l.getLast?).map Block.hash).getD p

theorem lastHashD_cons (x : Block) (t : List Block) (p : String) :
    lastHashD (x :: t) p = lastHashD t x.hash := by
  cases t with
  | nil => rfl
  | cons y t2 =>
    unfold lastHashD
    rw [List.getLast?_cons_cons]
    obtain ⟨lb, hlb⟩ := Option.isSome_iff_exists.mp
      (List.getLast?_isSome.mpr (List.cons_ne_nil y t2))
    rw [hlb]
    simp

theorem invFrom_append (l : List Block) (b : Block) (i : Nat) (p : String)
    (hl : invFrom l i p = true)
    (hidx : b.index = Int.ofNat (i + l.length))
    (hprev : b.previousHash = lastHashD l p)
    (hhash : b.hash = calculateHash b) :
    invFrom (l ++ [b]) i p = true := by
  induction l generalizing i p with
  | nil =>
    simp only [List.nil_append, invFrom, Bool.and_eq_true, decide_eq_true_eq]
    refine ⟨⟨⟨?_, hprev⟩, hhash⟩, trivial⟩
    simpa using hidx
  | cons x t ih =>
    simp only [invFrom, Bool.and_eq_true, decide_eq_true_eq] at hl
    obtain ⟨⟨⟨h1, h2⟩, h3⟩, h4⟩ := hl
    simp only [List.cons_append, invFrom, Bool.and_eq_true, decide_eq_true_eq]
    refine ⟨⟨⟨h1, h2⟩, h3⟩, ?_⟩
    refine ih (i + 1) x.hash h4 ?_ ?_
    · rw [hidx]
      exact congrArg Int.ofNat (by simp only [List.length_cons]; omega)
    · rw [hprev, lastHashD_cons]

theorem linksOk_append (l : List Block) (b last : Block)
    (hl : linksOk l = true) (hlast : l.getLast? = some last)
    (hprev : b.previousHash = last.hash) : linksOk (l ++ [b]) = true := by
  induction l with
  | nil => simp at hlast
  | cons x t ih =>
    cases t with
    | nil =>
      simp only [List.getLast?_singleton, Option.some.injEq] at hlast
      subst hlast
      simp [linksOk, hprev]
    | cons y t2 =>
      simp only [linksOk, Bool.and_eq_true, decide_eq_true_eq] at hl
      obtain ⟨h1, h2⟩ := hl
      rw [List.getLast?_cons_cons] at hlast
      have := ih h2 hlast
      simp only [List.cons_append] at this ⊢
      simp only [linksOk, Bool.and_eq_true, decide_eq_true_eq]
      exact ⟨h1, by simpa using this⟩

theorem chainCheck_linksOk (l : List Block) (h : chainCheck l = true) :
    linksOk l = true := by
  induction l with
  | nil => rfl
  | cons x t ih =>
    cases t with
    | nil => rfl
    | cons y t2 =>
      simp only [chainCheck, Bool.and_eq_true, decide_eq_true_eq] at h
      obtain ⟨⟨h1, h2⟩, h3⟩ := h
      simp only [linksOk, Bool.and_eq_true, decide_eq_true_eq]
      exact ⟨h2, ih h3⟩

theorem chainInv_genesis (ts : Nat) : chainInv (newBlockchain ts).chain = true := by
  simp [chainInv, newBlockchain, invFrom, genesisBlock, calculateHash, hashRecord]

/-- Every state reachable by `AddBlock` alone satisfies the four Ledger
invariants. -/
theorem reachableAdd_chainInv (bc : Blockchain) (h : ReachableAdd bc) :
    chainInv bc.chain = true := by
  induction h with
  | genesis ts => exact chainInv_genesis ts
  | add bc d now hr hs ih =>
    cases hl : bc.chain.getLast? with
    | none =>
      exfalso
      unfold addBlock at hs
      rw [hl] at hs
      simp at hs
    | some last =>
      rw [addBlock_some bc d now last hl]
      simp only [chainInv, Bool.and_eq_true] at ih ⊢
      obtain ⟨hne, hinv⟩ := ih
      constructor
      · simp
      · apply invFrom_append _ _ _ _ hinv
        · rw [buildBlock_index]
          simp
        · rw [buildBlock_prev]
          unfold lastHashD
          rw [hl]
          rfl
        · exact buildBlock_hash bc d now last.hash

/-- Every state reachable by `AddBlock` and `ReplaceChain` satisfies
invariant 2 (hash links), the one property `IsValidChain` actually checks. -/
theorem reachable_linksOk (bc : Blockchain) (h : Reachable bc) :
    linksOk bc.chain = true := by
  induction h with
  | genesis ts => rfl
  | add bc d now hr hs ih =>
    cases hl : bc.chain.getLast? with
    | none =>
      exfalso
      unfold addBlock at hs
      rw [hl] at hs
      simp at hs
    | some last =>
      rw [addBlock_some bc d now last hl]
      exact linksOk_append bc.chain _ last ih hl (buildBlock_prev bc d now last.hash)
  | replace bc c hr h1 ih =>
    by_cases hlen : c.length ≤ bc.chain.length
    · exfalso
      unfold replaceChain at h1
      rw [if_pos hlen] at h1
      simp at h1
    · by_cases hval : isValidChain c = true
      · have h2 : (replaceChain bc c).2 = { bc with chain := c } := by
          unfold replaceChain
          rw [if_neg hlen, if_neg (fun hc => hc hval)]
        rw [h2]
        have hcc : chainCheck c = true := by
          unfold isValidChain at hval
          exact (Bool.and_eq_true_iff.mp hval).2
        exact chainCheck_linksOk c hcc
      · exfalso
        unfold replaceChain at h1
        rw [if_neg hlen, if_pos hval] at h1
        simp at h1

/-! ## Concrete states used by witnesses and counterexamples -/

/-- A node started at time 0. -/
def gBC : Blockchain := newBlockchain 0

/-- A candidate chain that passes `IsValidChain` (non-empty hashes, correct
links) while violating ledger invariants 1, 3 and 4: the first block's
`previous_hash` is not empty, the indices are 5 and 7, and the stored hashes
are not recomputations. -/
def cbad : List Block :=
  [ { index := 5, timestamp := 0, data := .nil, previousHash := "x",
      hash := "a", nonce := 0, type := "" },
    { index := 7, timestamp := 0, data := .nil, previousHash := "a",
      hash := "b", nonce := 0, type := "" } ]

/-- A sample block payload. -/
def dEx : Fields := .cons "type" (.vstr "TEST") .nil

/-- A self-consistent index-0 block that is not in `gBC`'s chain. -/
def bV : Block :=
  let base : Block :=
    { index := 0, timestamp := 5, data := .cons "k" (.vstr "v") .nil,
      previousHash := "p", hash := "", nonce := 0, type := "T" }
  { base with hash := calculateHash base }

/-- A block whose stored hash is the genesis hash (so the hash is present in
`gBC`'s chain) but whose contents do not recompute to it. -/
def bI : Block :=
  { index := 0, timestamp := 0, data := .nil, previousHash := "",
    hash := (genesisBlock 0).hash, nonce := 0, type := "" }

/-- A well-formed contract submission. -/
def baseC : Contract :=
  { id := "c1", entityCode := "E", entityName := "N",
    contractType := "T", description := "D", amount := 1000, status := .draft,
    createdBy := "u", createdAt := 0, updatedAt := 0, validationSteps := [],
    currentStep := 0, requiredRoles := [], auditTrail := [] }

/-- The node after `AddContract` stored `baseC` (contract `"c1"`, six pending
steps, `current_step = 1`). -/
def bc0 : Blockchain := (addContract gBC baseC 1).2

/-! ## Claims -/

/-- **C1** (counterexample): the claim is false as stated. From genesis, a
successful `ReplaceChain` can adopt `cbad`, a strictly longer candidate that
passes `IsValidChain` (which checks only non-empty hashes and adjacent
links), producing a reachable state violating the four Ledger invariants:
`chain[0].previous_hash` is `"x"`, the indices are 5 and 7, and no stored
hash matches its recomputation. -/
theorem c1_counterexample :
    Reachable (replaceChain gBC cbad).2 ∧
    chainInv (replaceChain gBC cbad).2.chain = false :=
  ⟨Reachable.replace gBC cbad (Reachable.genesis 0) (by decide), by decide⟩

/-- **C1** (amended): every ledger state reachable from genesis by successful
`AddBlock` operations alone satisfies the four Ledger invariants; states
reachable with `ReplaceChain` as well are only guaranteed invariant 2 (each
block links to its predecessor's hash), the sole invariant `IsValidChain`
enforces. -/
theorem c1_invariants_amended :
    (∀ bc : Blockchain, ReachableAdd bc → chainInv bc.chain = true) ∧
    (∀ bc : Blockchain, Reachable bc → linksOk bc.chain = true) :=
  ⟨reachableAdd_chainInv, reachable_linksOk⟩

theorem c1_invariants_witness :
    chainInv (newBlockchain 0).chain = true ∧
    linksOk (newBlockchain 0).chain = true :=
  ⟨c1_invariants_amended.1 (newBlockchain 0) (ReachableAdd.genesis 0),
   c1_invariants_amended.2 (newBlockchain 0) (Reachable.genesis 0)⟩

/-- **C5**: `ReplaceChain` adopts a candidate chain verbatim iff it is
strictly longer than the current chain and `IsValidChain` holds for it; in
every failing case it returns an error and leaves the local state exactly as
it was. -/
theorem c5_replaceChain (bc : Blockchain) (c : List Block) :
    ((replaceChain bc c).1 = none ↔
      bc.chain.length < c.length ∧ isValidChain c = true) ∧
    (bc.chain.length < c.length → isValidChain c = true →
      replaceChain bc c = (none, { bc with chain := c })) ∧
    ((replaceChain bc c).1.isSome → (replaceChain bc c).2 = bc) := by
  unfold replaceChain
  by_cases hlen : c.length ≤ bc.chain.length
  · rw [if_pos hlen]
    refine ⟨?_, ?_, ?_⟩
    · simp
      omega
    · intro hlt
      omega
    · intro _
      rfl
  · rw [if_neg hlen]
    by_cases hval : isValidChain c = true
    · rw [if_neg (fun hc => hc hval)]
      refine ⟨?_, ?_, ?_⟩
      · simp [hval]
        omega
      · intro _ _
        rfl
      · intro hs
        simp at hs
    · rw [if_pos hval]
      refine ⟨?_, ?_, ?_⟩
      · simp
        intro _
        exact Bool.eq_false_iff.mpr hval
      · intro _ hv
        exact absurd hv hval
      · intro _
        rfl

theorem c5_witness :
    gBC.chain.length < cbad.length ∧ isValidChain cbad = true ∧
    replaceChain gBC cbad = (none, { gBC with chain := cbad }) :=
  ⟨by decide, by decide,
   (c5_replaceChain gBC cbad).2.1 (by decide) (by decide)⟩

/-- **C6**: on every ledger state satisfying the chain invariants, `AddBlock`
appends exactly one block — index equal to the pre-call length,
`previous_hash` the pre-call last block's hash, stored hash equal to its
recomputation — and the failure branch (which in general leaves the chain
completely unchanged) is unreachable under the invariants. -/
theorem c6_append_all_or_nothing (bc : Blockchain) (d : Fields) (now : Nat)
    (h : chainInv bc.chain = true) :
    (∃ b last, bc.chain.getLast? = some last ∧
      addBlock bc d now = (some b, { bc with chain := bc.chain ++ [b] }) ∧
      b.index = Int.ofNat bc.chain.length ∧ b.previousHash = last.hash ∧
      b.hash = calculateHash b) ∧
    (∀ (bc2 : Blockchain) (d2 : Fields) (now2 : Nat),
      (addBlock bc2 d2 now2).1 = none → (addBlock bc2 d2 now2).2 = bc2) := by
  constructor
  · have hne : bc.chain ≠ [] := by
      intro hnil
      rw [hnil] at h
      simp [chainInv] at h
    obtain ⟨last, hl⟩ := Option.isSome_iff_exists.mp (List.getLast?_isSome.mpr hne)
    exact ⟨buildBlock bc d now last.hash, last, hl, addBlock_some bc d now last hl,
      buildBlock_index bc d now last.hash, buildBlock_prev bc d now last.hash,
      buildBlock_hash bc d now last.hash⟩
  · exact addBlock_fail_unchanged

theorem c6_witness :
    chainInv gBC.chain = true ∧
    ((∃ b last, gBC.chain.getLast? = some last ∧
        addBlock gBC dEx 1 = (some b, { gBC with chain := gBC.chain ++ [b] }) ∧
        b.index = Int.ofNat gBC.chain.length ∧ b.previousHash = last.hash ∧
        b.hash = calculateHash b) ∧
      (∀ (bc2 : Blockchain) (d2 : Fields) (now2 : Nat),
        (addBlock bc2 d2 now2).1 = none → (addBlock bc2 d2 now2).2 = bc2)) :=
  ⟨by decide, c6_append_all_or_nothing gBC dEx 1 (by decide)⟩

/-- Normal form of `commitWithBlock` on a non-empty chain. -/
theorem commitWithBlock_spec (bc : Blockchain) (id : String) (c1 : Contract)
    (bd : Fields) (now : Nat) (last : Block)
    (hl : bc.chain.getLast? = some last) :
    commitWithBlock bc id c1 bd now =
      (none,
       { chain := bc.chain ++ [buildBlock bc bd now last.hash],
         contracts := mapInsert (mapInsert bc.contracts id c1) id
           { c1 with auditTrail :=
               setLastBlockHash c1.auditTrail (buildBlock bc bd now last.hash).hash } }) := by
  unfold commitWithBlock
  dsimp only
  rw [addBlock_some { bc with contracts := mapInsert bc.contracts id c1 } bd now last hl]
  rfl

/-- `commitWithBlock` on an empty chain: the block append fails and the
contract mutation persists (in Go this state is unreachable). -/
theorem commitWithBlock_none (bc : Blockchain) (id : String) (c1 : Contract)
    (bd : Fields) (now : Nat) (hl : bc.chain.getLast? = none) :
    commitWithBlock bc id c1 bd now =
      (some .invalidBlock, { bc with contracts := mapInsert bc.contracts id c1 }) := by
  unfold commitWithBlock addBlock
  dsimp only
  rw [hl]

/-- **C4** (counterexample): the claim is false as stated. First, `ReceiveBlock`
validates before the duplicate check, so a block whose hash is already present
but whose contents do not recompute to it yields an error, not ok. Second, an
accepted block is appended re-wrapped with its own freshly computed hash, so
receiving the same self-consistent index-0 block twice appends two entries and
leaves zero ledger entries carrying that block's hash. -/
theorem c4_counterexample :
    (hasBlock gBC bI.hash = true ∧
     (receiveBlock gBC bI 1).1 = some Err.invalidBlockReceived) ∧
    (isValidBlock gBC bV = true ∧ hasBlock gBC bV.hash = false ∧
     (receiveBlock (receiveBlock gBC bV 1).2 bV 2).2.chain.length = 3 ∧
     ((receiveBlock (receiveBlock gBC bV 1).2 bV 2).2.chain.filter
        (fun blk => decide (blk.hash = bV.hash))).length = 0) := by
  set_option maxRecDepth 4000 in decide

/-- **C4** (amended): `ReceiveBlock` first validates: an invalid block is
rejected with an error and the chain is unchanged, even when its hash is
already present. A valid block whose hash is already present is an idempotent
no-op returning ok. A valid new block is accepted, but it is appended
re-wrapped (its stored hash differs from the received block's hash in
general), so accepting twice grows the chain twice rather than leaving
exactly one entry with the received hash. -/
theorem c4_receive_amended :
    (∀ (bc : Blockchain) (b : Block) (now : Nat), isValidBlock bc b = false →
      receiveBlock bc b now = (some .invalidBlockReceived, bc)) ∧
    (∀ (bc : Blockchain) (b : Block) (now : Nat), isValidBlock bc b = true →
      hasBlock bc b.hash = true → receiveBlock bc b now = (none, bc)) ∧
    (∀ (bc : Blockchain) (b : Block) (now : Nat), isValidBlock bc b = true →
      hasBlock bc b.hash = false → bc.chain ≠ [] →
      (receiveBlock bc b now).1 = none ∧
      (receiveBlock bc b now).2.chain.length = bc.chain.length + 1) := by
  refine ⟨?_, ?_, ?_⟩
  · intro bc b now hv
    unfold receiveBlock
    rw [if_pos (by simp [hv])]
  · intro bc b now hv hh
    unfold receiveBlock
    rw [if_neg (by simp [hv]), if_pos hh]
  · intro bc b now hv hh hne
    obtain ⟨last, hl⟩ := Option.isSome_iff_exists.mp (List.getLast?_isSome.mpr hne)
    unfold receiveBlock
    rw [if_neg (by simp [hv]), if_neg (by simp [hh]),
      addBlock_some bc (envelopeData b) now last hl]
    simp

theorem c4_receive_witness :
    isValidBlock gBC (genesisBlock 0) = true ∧
    hasBlock gBC (genesisBlock 0).hash = true ∧
    receiveBlock gBC (genesisBlock 0) 1 = (none, gBC) :=
  ⟨by decide, by decide,
   c4_receive_amended.2.1 gBC (genesisBlock 0) 1 (by decide) (by decide)⟩

/-- **C9**: every block accepted by `ReceiveBlock` is appended as a freshly
built local block whose payload is the five-key envelope
`(type, data, timestamp, previous_hash, nonce)` wrapping the received block's
fields, with a fresh local timestamp and a recomputed hash; the appended
payload strictly contains — and therefore differs from — the received block's
own payload, so the received block is never stored verbatim. -/
theorem c9_receive_wraps (bc : Blockchain) (b : Block) (now : Nat)
    (hv : isValidBlock bc b = true) (hh : hasBlock bc b.hash = false)
    (hne : bc.chain ≠ []) :
    ∃ nb, receiveBlock bc b now = (none, { bc with chain := bc.chain ++ [nb] }) ∧
      nb.data = envelopeData b ∧ nb.timestamp = now ∧ nb.type = b.type ∧
      nb.hash = calculateHash nb ∧ nb.data ≠ b.data := by
  obtain ⟨last, hl⟩ := Option.isSome_iff_exists.mp (List.getLast?_isSome.mpr hne)
  refine ⟨buildBlock bc (envelopeData b) now last.hash, ?_, rfl, rfl, ?_, ?_, ?_⟩
  · unfold receiveBlock
    rw [if_neg (by simp [hv]), if_neg (by simp [hh]),
      addBlock_some bc (envelopeData b) now last hl]
  · simp [buildBlock, envelopeData, Fields.typeString, Fields.lookup]
  · exact buildBlock_hash bc (envelopeData b) now last.hash
  · intro hEq
    have hs := congrArg Fields.size hEq
    simp only [buildBlock] at hs
    simp [envelopeData, Fields.size, Val.size] at hs
    omega

theorem c9_receive_wraps_witness :
    isValidBlock gBC bV = true ∧ hasBlock gBC bV.hash = false ∧ gBC.chain ≠ [] ∧
    (∃ nb, receiveBlock gBC bV 1 = (none, { gBC with chain := gBC.chain ++ [nb] }) ∧
      nb.data = envelopeData bV ∧ nb.timestamp = 1 ∧ nb.type = bV.type ∧
      nb.hash = calculateHash nb ∧ nb.data ≠ bV.data) :=
  ⟨by decide, by decide, by exact List.cons_ne_nil _ _,
   c9_receive_wraps gBC bV 1 (by decide) (by decide) (by exact List.cons_ne_nil _ _)⟩

/-- `ValidateStep` on a step number other than the contract's current step
fails with the step-mismatch error and changes nothing. -/
theorem validateStep_mismatch (bc : Blockchain) (id : String) (n : Int)
    (vid vname : String) (role : AdminRole) (ap : Bool) (cm : String) (now : Nat)
    (c : Contract) (hc : mapFind bc.contracts id = some c)
    (hn : n ≠ c.currentStep) :
    validateStep bc id n vid vname role ap cm now =
      (some (.stepMismatch c.currentStep n), bc) := by
  unfold validateStep
  rw [hc]
  dsimp only
  rw [if_pos hn]

/-- When the step number does match, `ValidateStep` never reports a step
mismatch: the remaining outcomes are out-of-range, block failure, or ok. -/
theorem validateStep_matched_outcomes (bc : Blockchain) (id : String) (n : Int)
    (vid vname : String) (role : AdminRole) (ap : Bool) (cm : String) (now : Nat)
    (c : Contract) (hc : mapFind bc.contracts id = some c)
    (hn : n = c.currentStep) :
    (validateStep bc id n vid vname role ap cm now).1 = some .stepOutOfRange ∨
    (validateStep bc id n vid vname role ap cm now).1 = some .invalidBlock ∨
    (validateStep bc id n vid vname role ap cm now).1 = none := by
  unfold validateStep
  rw [hc]
  dsimp only
  rw [if_neg (fun h => h hn)]
  by_cases hr : n > Int.ofNat c.validationSteps.length
  · rw [if_pos hr]
    exact Or.inl rfl
  · rw [if_neg hr]
    cases hl : bc.chain.getLast? with
    | none =>
      rw [commitWithBlock_none bc id _ _ now hl]
      exact Or.inr (Or.inl rfl)
    | some last =>
      rw [commitWithBlock_spec bc id _ _ now last hl]
      exact Or.inr (Or.inr rfl)

/-- **C3**: for a stored contract, `ValidateStep` fails with `StepMismatch`
(leaving the state untouched) iff the requested step differs from
`current_step`; a successful approval of step `n` sets `current_step` to
exactly `n + 1` and the status to the state of step `n + 1`, where the
step-to-status table maps 2-6 to the five review states and everything past
6 to `AuthorizedForPublication`. -/
theorem c3_validateStep_strict (bc : Blockchain) (id : String) (n : Int)
    (vid vname : String) (role : AdminRole) (ap : Bool) (cm : String) (now : Nat)
    (c : Contract) (hc : mapFind bc.contracts id = some c)
    (_hcs : 1 ≤ c.currentStep) :
    ((validateStep bc id n vid vname role ap cm now).1 =
        some (.stepMismatch c.currentStep n) ↔ n ≠ c.currentStep) ∧
    (n ≠ c.currentStep →
      validateStep bc id n vid vname role ap cm now =
        (some (.stepMismatch c.currentStep n), bc)) ∧
    (ap = true → (validateStep bc id n vid vname role ap cm now).1 = none →
      ∃ c', mapFind (validateStep bc id n vid vname role ap cm now).2.contracts id
          = some c' ∧
        c'.currentStep = n + 1 ∧ c'.status = getStatusForStep (n + 1)) ∧
    (getStatusForStep 2 = .technicalReview ∧ getStatusForStep 3 = .legalReview ∧
      getStatusForStep 4 = .contractsReview ∧ getStatusForStep 5 = .adminReview ∧
      getStatusForStep 6 = .budgetReview ∧
      ∀ m : Int, 6 < m → getStatusForStep m = .authorizedForPublication) := by
  refine ⟨⟨?_, ?_⟩, ?_, ?_, ?_⟩
  · intro hres
    rcases eq_or_ne n c.currentStep with hn | hn
    · rcases validateStep_matched_outcomes bc id n vid vname role ap cm now c hc hn
        with h | h | h <;> rw [h] at hres <;> simp at hres
    · exact hn
  · intro hn
    rw [validateStep_mismatch bc id n vid vname role ap cm now c hc hn]
  · intro hn
    rw [validateStep_mismatch bc id n vid vname role ap cm now c hc hn]
  · intro hap hnone
    subst hap
    by_cases hn : n = c.currentStep
    · unfold validateStep at hnone ⊢
      rw [hc] at hnone ⊢
      dsimp only at hnone ⊢
      rw [if_neg (fun h => h hn)] at hnone ⊢
      by_cases hr : n > Int.ofNat c.validationSteps.length
      · rw [if_pos hr] at hnone
        simp at hnone
      · rw [if_neg hr] at hnone ⊢
        cases hl : bc.chain.getLast? with
        | none =>
          rw [commitWithBlock_none bc id _ _ now hl] at hnone
          simp at hnone
        | some last =>
          rw [commitWithBlock_spec bc id _ _ now last hl]
          dsimp only
          rw [mapFind_insert_self]
          refine ⟨_, rfl, ?_, ?_⟩
          · rw [if_pos rfl, hn]
          · rw [if_pos rfl, hn]
    · rw [validateStep_mismatch bc id n vid vname role true cm now c hc hn] at hnone
      simp at hnone
  · refine ⟨rfl, rfl, rfl, rfl, rfl, ?_⟩
    intro m hm
    unfold getStatusForStep
    rw [if_neg (by omega), if_neg (by omega), if_neg (by omega),
      if_neg (by omega), if_neg (by omega), if_neg (by omega)]

/-- The contract stored by `bc0` under `"c1"`. -/
def cStored : Contract := (mapFind bc0.contracts "c1").getD baseC

theorem bc0_chain_ne : bc0.chain ≠ [] := by
  intro h
  have hlen : bc0.chain.length = 2 := by decide
  rw [h] at hlen
  simp at hlen

theorem c3_validateStep_strict_witness :
    mapFind bc0.contracts "c1" = some cStored ∧ 1 ≤ cStored.currentStep ∧
    (((validateStep bc0 "c1" 1 "v" "V" .projectDeveloper true "ok" 2).1 =
        some (.stepMismatch cStored.currentStep 1) ↔ 1 ≠ cStored.currentStep) ∧
     (1 ≠ cStored.currentStep →
       validateStep bc0 "c1" 1 "v" "V" .projectDeveloper true "ok" 2 =
         (some (.stepMismatch cStored.currentStep 1), bc0)) ∧
     (true = true →
       (validateStep bc0 "c1" 1 "v" "V" .projectDeveloper true "ok" 2).1 = none →
       ∃ c', mapFind (validateStep bc0 "c1" 1 "v" "V" .projectDeveloper true
           "ok" 2).2.contracts "c1" = some c' ∧
         c'.currentStep = 1 + 1 ∧ c'.status = getStatusForStep (1 + 1)) ∧
     (getStatusForStep 2 = .technicalReview ∧ getStatusForStep 3 = .legalReview ∧
       getStatusForStep 4 = .contractsReview ∧ getStatusForStep 5 = .adminReview ∧
       getStatusForStep 6 = .budgetReview ∧
       ∀ m : Int, 6 < m → getStatusForStep m = .authorizedForPublication)) :=
  ⟨by decide, by decide,
   c3_validateStep_strict bc0 "c1" 1 "v" "V" .projectDeveloper true "ok" 2
     cStored (by decide) (by decide)⟩

/-- The node state after step 1 of contract `"c1"` was rejected. -/
def bcRej : Blockchain :=
  (validateStep bc0 "c1" 1 "v1" "V1" .projectDeveloper false "no" 2).2

/-- **C2** (code-bug exhibit): rejection is not terminal. Rejecting step 1 of
contract `"c1"` sets its status to `Rejected` while `current_step` stays 1;
a subsequent `ValidateStep` call for the same step number 1 succeeds,
overwrites the rejection, and advances the contract to `TechnicalReview`
with `current_step = 2` — contradicting both the spec and the code's own
`GetContractWorkflowStatus`, whose `CanAdvance` is false for `Rejected`. -/
theorem c2_rejected_not_terminal :
    ((validateStep bc0 "c1" 1 "v1" "V1" .projectDeveloper false "no" 2).1 = none ∧
     (mapFind bcRej.contracts "c1").map (fun c => (c.status, c.currentStep)) =
       some (ContractStatus.rejected, 1)) ∧
    ((validateStep bcRej "c1" 1 "v2" "V2" .technicalCommission true "ok" 3).1 = none ∧
     (mapFind (validateStep bcRej "c1" 1 "v2" "V2" .technicalCommission true
         "ok" 3).2.contracts "c1").map (fun c => (c.status, c.currentStep)) =
       some (ContractStatus.technicalReview, 2)) := by
  decide

/-- **C8**: `AddAuditObservation` on a stored contract fails with
`RoleNotAuthorized` — leaving the whole state unchanged — unless the role is
Comptroller, Prosecutor or Citizen; a successful call leaves the contract's
status, `current_step` and validation steps untouched, grows its audit trail
by exactly one entry, and appends exactly one `AUDIT_OBSERVATION` block. -/
theorem c8_audit_observation (bc : Blockchain) (id aud : String)
    (role : AdminRole) (obs : String) (now : Nat) (c : Contract)
    (hc : mapFind bc.contracts id = some c) (hne : bc.chain ≠ []) :
    (role ≠ .comptroller ∧ role ≠ .prosecutor ∧ role ≠ .citizen →
      addAuditObservation bc id aud role obs now = (some .roleNotAuthorized, bc)) ∧
    (role = .comptroller ∨ role = .prosecutor ∨ role = .citizen →
      (addAuditObservation bc id aud role obs now).1 = none ∧
      (∃ c', mapFind (addAuditObservation bc id aud role obs now).2.contracts id
          = some c' ∧
        c'.status = c.status ∧ c'.currentStep = c.currentStep ∧
        c'.validationSteps = c.validationSteps ∧
        c'.auditTrail.length = c.auditTrail.length + 1) ∧
      ∃ nb, (addAuditObservation bc id aud role obs now).2.chain
          = bc.chain ++ [nb] ∧ nb.type = "AUDIT_OBSERVATION") := by
  constructor
  · intro hroles
    unfold addAuditObservation
    rw [hc]
    dsimp only
    rw [if_pos hroles]
  · intro hrole
    have hcond : ¬(role ≠ .comptroller ∧ role ≠ .prosecutor ∧ role ≠ .citizen) := by
      rcases hrole with h | h | h <;> simp [h]
    obtain ⟨last, hl⟩ := Option.isSome_iff_exists.mp (List.getLast?_isSome.mpr hne)
    unfold addAuditObservation
    rw [hc]
    dsimp only
    rw [if_neg hcond, commitWithBlock_spec bc id _ _ now last hl]
    refine ⟨rfl, ⟨_, mapFind_insert_self _ _ _, rfl, rfl, rfl, ?_⟩, _, rfl, ?_⟩
    · rw [length_setLastBlockHash]
      simp
    · simp [buildBlock, Fields.typeString, Fields.lookup]

theorem c8_audit_observation_witness :
    mapFind bc0.contracts "c1" = some cStored ∧ bc0.chain ≠ [] ∧
    ((AdminRole.comptroller ≠ .comptroller ∧ AdminRole.comptroller ≠ .prosecutor ∧
        AdminRole.comptroller ≠ .citizen →
      addAuditObservation bc0 "c1" "aud" .comptroller "obs" 5 =
        (some .roleNotAuthorized, bc0)) ∧
     (AdminRole.comptroller = .comptroller ∨ AdminRole.comptroller = .prosecutor ∨
        AdminRole.comptroller = .citizen →
      (addAuditObservation bc0 "c1" "aud" .comptroller "obs" 5).1 = none ∧
      (∃ c', mapFind (addAuditObservation bc0 "c1" "aud" .comptroller "obs"
          5).2.contracts "c1" = some c' ∧
        c'.status = cStored.status ∧ c'.currentStep = cStored.currentStep ∧
        c'.validationSteps = cStored.validationSteps ∧
        c'.auditTrail.length = cStored.auditTrail.length + 1) ∧
      ∃ nb, (addAuditObservation bc0 "c1" "aud" .comptroller "obs" 5).2.chain
          = bc0.chain ++ [nb] ∧ nb.type = "AUDIT_OBSERVATION")) :=
  ⟨by decide, bc0_chain_ne,
   c8_audit_observation bc0 "c1" "aud" .comptroller "obs" 5 cStored
     (by decide) bc0_chain_ne⟩

/-- **C10**: the outcome of `ValidateStep` is independent of the role
argument: calls differing only in the role return the same error (or both
succeed), and the stored contract's status, `current_step` and validation
steps agree — the role is only recorded in the audit trail and the block
payload, never checked. -/
theorem c10_role_independent (bc : Blockchain) (id : String) (n : Int)
    (vid vname : String) (r1 r2 : AdminRole) (ap : Bool) (cm : String)
    (now : Nat) :
    (validateStep bc id n vid vname r1 ap cm now).1 =
      (validateStep bc id n vid vname r2 ap cm now).1 ∧
    ((mapFind (validateStep bc id n vid vname r1 ap cm now).2.contracts id).map
       (fun c => (c.status, c.currentStep, c.validationSteps))) =
    ((mapFind (validateStep bc id n vid vname r2 ap cm now).2.contracts id).map
       (fun c => (c.status, c.currentStep, c.validationSteps))) := by
  unfold validateStep
  cases hc : mapFind bc.contracts id with
  | none => exact ⟨rfl, by rw [hc]⟩
  | some c =>
    dsimp only
    by_cases hn : n ≠ c.currentStep
    · rw [if_pos hn, if_pos hn]
      exact ⟨rfl, by rw [hc]⟩
    · rw [if_neg hn, if_neg hn]
      by_cases hr : n > Int.ofNat c.validationSteps.length
      · rw [if_pos hr, if_pos hr]
        exact ⟨rfl, by rw [hc]⟩
      · rw [if_neg hr, if_neg hr]
        cases hl : bc.chain.getLast? with
        | none =>
          rw [commitWithBlock_none bc id _ _ now hl,
            commitWithBlock_none bc id _ _ now hl]
          refine ⟨rfl, ?_⟩
          dsimp only
          rw [mapFind_insert_self, mapFind_insert_self]
          cases ap <;> rfl
        | some last =>
          rw [commitWithBlock_spec bc id _ _ now last hl,
            commitWithBlock_spec bc id _ _ now last hl]
          refine ⟨rfl, ?_⟩
          dsimp only
          rw [mapFind_insert_self, mapFind_insert_self]
          cases ap <;> rfl

/-- One step of the contract-rebuild fold either keeps the map or records a
decoded `CONTRACT_CREATION` payload under its contract id. -/
theorem rebuild_step (m : List (String × Contract)) (x : Block) (id : String) :
    (mapFind (if x.type = "CONTRACT_CREATION" then
        match decodeContract x.data with
        | some c => mapInsert m c.id c
        | none => m
      else m) id).isSome ↔
    (mapFind m id).isSome ∨ (x.type = "CONTRACT_CREATION" ∧
      ∃ c, decodeContract x.data = some c ∧ c.id = id) := by
  by_cases ht : x.type = "CONTRACT_CREATION"
  · rw [if_pos ht]
    cases hd : decodeContract x.data with
    | none => simp [ht, hd]
    | some c =>
      by_cases hid : c.id = id
      · subst hid
        simp [ht, hd, mapFind_insert_self]
      · simp [ht, hd, hid, mapFind_insert]
  · simp [ht]

/-- Membership in the rebuilt contracts map, over any starting map. -/
theorem rebuild_aux (l : List Block) (m : List (String × Contract)) (id : String) :
    (mapFind (List.foldl (fun m b =>
        if b.type = "CONTRACT_CREATION" then
          match decodeContract b.data with
          | some c => mapInsert m c.id c
          | none => m
        else m) m l) id).isSome ↔
    (mapFind m id).isSome ∨ ∃ b ∈ l, b.type = "CONTRACT_CREATION" ∧
      ∃ c, decodeContract b.data = some c ∧ c.id = id := by
  induction l generalizing m with
  | nil => simp
  | cons x t ih =>
    rw [List.foldl_cons, ih, rebuild_step]
    constructor
    · rintro ((h | hx) | ⟨b, hb, hp⟩)
      · exact Or.inl h
      · exact Or.inr ⟨x, List.mem_cons_self x t, hx⟩
      · exact Or.inr ⟨b, List.mem_cons_of_mem x hb, hp⟩
    · rintro (h | ⟨b, hb, hp⟩)
      · exact Or.inl (Or.inl h)
      · rcases List.mem_cons.mp hb with hbx | hbt
        · subst hbx
          exact Or.inl (Or.inr hp)
        · exact Or.inr ⟨b, hbt, hp⟩

/-- **C7**: when reconciliation adopts a strictly longer valid peer chain, it
adopts it verbatim and rebuilds the contracts map from scratch: the rebuilt
map holds an entry for a contract id exactly when some `CONTRACT_CREATION`
block of the adopted chain has a payload that decodes to a contract with that
id, and nothing else. (In this code the decode — `json.Unmarshal` of a Go
`%v`-rendering — always fails, so the rebuilt map is empty.) -/
theorem c7_sync_rebuilds (bc : Blockchain) (peerChain : List Block)
    (h1 : bc.chain.length < peerChain.length)
    (h2 : isValidChain peerChain = true) :
    (syncWithPeer bc peerChain).chain = peerChain ∧
    (syncWithPeer bc peerChain).contracts = rebuildContracts peerChain ∧
    ∀ id, (mapFind (rebuildContracts peerChain) id).isSome ↔
      ∃ b ∈ peerChain, b.type = "CONTRACT_CREATION" ∧
        ∃ c, decodeContract b.data = some c ∧ c.id = id := by
  unfold syncWithPeer
  rw [if_pos ⟨h1, h2⟩]
  refine ⟨rfl, rfl, ?_⟩
  intro id
  unfold rebuildContracts
  rw [rebuild_aux]
  simp [mapFind]

theorem c7_sync_rebuilds_witness :
    gBC.chain.length < cbad.length ∧ isValidChain cbad = true ∧
    ((syncWithPeer gBC cbad).chain = cbad ∧
     (syncWithPeer gBC cbad).contracts = rebuildContracts cbad ∧
     ∀ id, (mapFind (rebuildContracts cbad) id).isSome ↔
       ∃ b ∈ cbad, b.type = "CONTRACT_CREATION" ∧
         ∃ c, decodeContract b.data = some c ∧ c.id = id) :=
  ⟨by decide, by decide, c7_sync_rebuilds gBC cbad (by decide) (by decide)⟩

end Secop
